import Mathlib

/-!
Shallow embedding of the `@rowanmanning/data-store` library.

The value domain of a record is `Option V` where `none` models the JavaScript
`undefined` value; a record (a plain JS object used as a map) is an association
list from string keys to values, kept in insertion order, where assigning an
existing key updates it in place and assigning a fresh key appends it (the
semantics of JS string-keyed objects).

Instance methods discovered by name (`get<Camel>`, `set<Camel>`,
`validate<Camel>`) are modelled as three lookup maps on the class shape, keyed
by the full derived name; override functions are modelled as pure functions.
Static class configuration (`allowedProperties`, `disallowedProperties`, the
two normalization functions, and the `varname` casing helpers, which the spec
treats as external pure functions) also lives on the shape.
-/

/-- JavaScript error values relevant to the library: `ValidationError`
(fields `message`, `details`, `code` from `lib/validation-error.js`),
`MultipleValidationError` (fields `message`, `validationErrors` from
`lib/multiple-validation-error.js`), `TypeError`, and any other error. -/
inductive JSErr where
  | validation (message : String) (details : List (String × String)) (code : String)
  | multiple (message : String) (validationErrors : List JSErr)
  | typeError (message : String)
  | generic (message : String)

/-- `error instanceof ValidationError` (note `MultipleValidationError`
extends `Error`, not `ValidationError`). -/
def isValidationError : JSErr → Bool
  | .validation _ _ _ => true
  | _ => false

/-- `new ValidationError(message, details, code)` from `lib/validation-error.js`:
the JS constructor defaults `details` to `{}` and `code` to
`'PROPERTY_VALIDATION'`; callers of this embedding pass the defaults
explicitly. -/
def ValidationError.make (message : String) (details : List (String × String))
    (code : String) : JSErr :=
  .validation message details code

/-- `new MultipleValidationError(validationErrors)` from
`lib/multiple-validation-error.js`: the message uses the length of the whole
input array, while the stored `validationErrors` list keeps only the items
that are `ValidationError` instances. -/
def MultipleValidationError.make (validationErrors : List JSErr) : JSErr :=
  .multiple (toString validationErrors.length ++ " validation errors")
    (validationErrors.filter isValidationError)

/-- A record: a JS object in insertion order; `none` values model stored
`undefined`. -/
abbrev Record (V : Type) := List (String × Option V)

/-- Property read `data[k]`: `none` when the key is absent. -/
def objGet {V : Type} (data : Record V) (k : String) : Option (Option V) :=
  (data.find? (fun kv => kv.1 == k)).map (fun kv => kv.2)

/-- Property write `data[k] = v`: updates an existing key in place, else
appends (JS string-key object semantics). -/
def objSet {V : Type} (data : Record V) (k : String) (v : Option V) : Record V :=
  match data with
  | [] => [(k, v)]
  | kv :: rest => if kv.1 == k then (k, v) :: rest else kv :: objSet rest k v

/-- The per-class "shape" of a store: the static configuration and the
dynamically discovered override methods. `camelcase` is `varname.camelcase`
and the default `normalizePropertyForStorage` is `varname.camelback`; the
spec treats both as external deterministic total string functions, so they
are parameters here. The three override maps are keyed by the full derived
method name (for example `"get" ++ camelcase property`). -/
structure Shape (V : Type) where
  camelcase : String → String
  normalizePropertyForStorage : String → String
  normalizePropertyForSerialization : String → String
  allowedProperties : Option (List String)
  disallowedProperties : Option (List String)
  className : String
  getters : String → Option (Option V)
  setters : String → Option (Option V → Option V)
  validators : String → Option (Option V → Option JSErr)

/-- `DataStore.isAllowedProperty(normalizedProperty)`: truthiness of the two
optional lists is modelled by `Option`; an empty list is truthy, matching JS. -/
def isAllowedProperty {V : Type} (sh : Shape V) (normalizedProperty : String) : Bool :=
  match sh.allowedProperties, sh.disallowedProperties with
  | none, none => true
  | allowedProperties, disallowedProperties =>
    if (match allowedProperties with
        | some l => !(l.contains normalizedProperty)
        | none => false) then false
    else if (match disallowedProperties with
        | some l => l.contains normalizedProperty
        | none => false) then false
    else true

namespace DataStore

/-- `DataStore#get(property)`: prefer a getter override discovered under
`get<Camel>`, else read the storage-normalized key from the raw data.
The `typeof property !== 'string'` guard is unrepresentable here because
property names are typed as strings. -/
def get {V : Type} (sh : Shape V) (data : Record V) (property : String) : Option V :=
  match sh.getters ("get" ++ sh.camelcase property) with
  | some result => result
  | none =>
    match objGet data (sh.normalizePropertyForStorage property) with
    | some value => value
    | none => none

/-- `DataStore#invalidate(message, details)` from `src/unnamed/part_003`:
throws a `ValidationError` whose `code` is left at its default
`'PROPERTY_VALIDATION'`. -/
def invalidate (message : String) (details : List (String × String)) : JSErr :=
  ValidationError.make message details "PROPERTY_VALIDATION"

/-- `DataStore#_setOne(property, value)` from `src/unnamed/part_003`:
pipeline is policy check (via `invalidate`), then validator override, then
setter override, then raw write. The result pairs the record after the call
with either the returned value or the thrown error. -/
def _setOne {V : Type} (sh : Shape V) (data : Record V) (property : String)
    (value : Option V) : Record V × Except JSErr (Option V) :=
  let propertyCamelCase := sh.camelcase property
  let normalizedProperty := sh.normalizePropertyForStorage property
  if !(isAllowedProperty sh normalizedProperty) then
    let classAndProperty := sh.className ++ "." ++ normalizedProperty
    (data, .error (invalidate (classAndProperty ++ " is not an allowed property name") []))
  else
    let validatorOutcome : Option JSErr :=
      match sh.validators ("validate" ++ propertyCamelCase) with
      | some validator => validator value
      | none => none
    match validatorOutcome with
    | some e => (data, .error e)
    | none =>
      match sh.setters ("set" ++ propertyCamelCase) with
      | some setter => (data, .ok (setter value))
      | none => (objSet data normalizedProperty value, .ok value)

/-- Loop of `DataStore#_setMany(properties)` from `src/unnamed/part_003`:
entries are applied in order with `_setOne` and the first thrown error
aborts the loop. -/
def _setManyGo {V : Type} (sh : Shape V) (data : Record V) (props : Record V) :
    Record V × Option JSErr :=
  match props with
  | [] => (data, none)
  | entry :: rest =>
    match _setOne sh data entry.1 entry.2 with
    | (d, Except.ok _) => _setManyGo sh d rest
    | (d, Except.error e) => (d, some e)

/-- `DataStore#_setMany(properties)` from `src/unnamed/part_003`: on success
the original `properties` argument is returned. The
`typeof properties !== 'object'` guard is unrepresentable because the
argument is typed as a record. -/
def _setMany {V : Type} (sh : Shape V) (data : Record V) (properties : Record V) :
    Record V × Except JSErr (Record V) :=
  match _setManyGo sh data properties with
  | (d, none) => (d, .ok properties)
  | (d, some e) => (d, .error e)

/-- `DataStore#set(property, value)`: the two-argument call shape, which the
source dispatches to `_setOne` by arity. -/
def set {V : Type} (sh : Shape V) (data : Record V) (property : String)
    (value : Option V) : Record V × Except JSErr (Option V) :=
  _setOne sh data property value

/-- `DataStore#serialize()` from `src/unnamed/part_003`: read every stored
key through `get` (honouring getter overrides), then assemble a fresh object
under serialization-normalized keys. -/
def serialize {V : Type} (sh : Shape V) (data : Record V) : Record V :=
  let entries : Record V := data.map (fun kv => (kv.1, get sh data kv.1))
  entries.foldl
    (fun result kv => objSet result (sh.normalizePropertyForSerialization kv.1) kv.2) []

end DataStore

/-- A JavaScript value passed to the `DataStore` constructor. A store
instance carries its own shape so that `data.serialize()` can be taken on it. -/
inductive JSInput (V : Type) where
  | obj (entries : Record V)
  | array (items : List (JSInput V))
  | null
  | str (s : String)
  | num (n : Int)
  | boolean (b : Bool)
  | store (sh : Shape V) (data : Record V)

/-- JS `typeof`. -/
def jsTypeof {V : Type} : JSInput V → String
  | .obj _ => "object"
  | .array _ => "object"
  | .null => "object"
  | .store _ _ => "object"
  | .str _ => "string"
  | .num _ => "number"
  | .boolean _ => "boolean"

/-- `Array.isArray`. -/
def isJSArray {V : Type} : JSInput V → Bool
  | .array _ => true
  | _ => false

/-- `data === null`. -/
def isJSNull {V : Type} : JSInput V → Bool
  | .null => true
  | _ => false

namespace DataStore

/-- `new DataStore(data)` from `src/unnamed/part_003`: reject non-objects,
arrays and `null`; take a store argument's `serialize()` output; then start
from an empty record and run the one-argument `set` (that is, `_setMany`).
A thrown error aborts construction. -/
def construct {V : Type} (sh : Shape V) (input : JSInput V) : Except JSErr (Record V) :=
  if jsTypeof input != "object" || isJSArray input || isJSNull input then
    .error (.typeError "DataStore data must be an object")
  else
    let entries : Record V :=
      match input with
      | .store sh0 d => serialize sh0 d
      | .obj es => es
      | _ => []
    match _setMany sh [] entries with
    | (d, .ok _) => .ok d
    | (_, .error e) => .error e

end DataStore

namespace Current

/-- Modelled from the spec: the current `lib/data-store.js` is missing from
`src/` (only its unit tests, `src/unnamed/part_000`, are present); §4.1 of the
spec has `invalidate` construct and raise a Validation Failure with the given
message and details, and the policy check pass a machine-readable
`DISALLOWED_PROPERTY` code through it. -/
def invalidate (message : String) (details : List (String × String))
    (code : String) : JSErr :=
  ValidationError.make message details code

/-- Modelled from the spec: `_setOne` of the current `lib/data-store.js`,
missing from `src/`. Identical pipeline to the `src/unnamed/part_003`
version (policy check, validator override, setter override, raw write)
except that the policy failure carries the `DISALLOWED_PROPERTY` code. -/
def _setOne {V : Type} (sh : Shape V) (data : Record V) (property : String)
    (value : Option V) : Record V × Except JSErr (Option V) :=
  let propertyCamelCase := sh.camelcase property
  let normalizedProperty := sh.normalizePropertyForStorage property
  if !(isAllowedProperty sh normalizedProperty) then
    let classAndProperty := sh.className ++ "." ++ normalizedProperty
    (data, .error (invalidate (classAndProperty ++ " is not an allowed property name") []
      "DISALLOWED_PROPERTY"))
  else
    let validatorOutcome : Option JSErr :=
      match sh.validators ("validate" ++ propertyCamelCase) with
      | some validator => validator value
      | none => none
    match validatorOutcome with
    | some e => (data, .error e)
    | none =>
      match sh.setters ("set" ++ propertyCamelCase) with
      | some setter => (data, .ok (setter value))
      | none => (objSet data normalizedProperty value, .ok value)

/-- Modelled from the spec: the loop of `_setMany` of the current
`lib/data-store.js`, missing from `src/`; §4.1: every entry is attempted via
`_setOne` with no short-circuit, and the thrown failures are collected in
order. Returns the record after all attempts and the collected failures. -/
def _setManyGo {V : Type} (sh : Shape V) (data : Record V) (props : Record V) :
    Record V × List JSErr :=
  match props with
  | [] => (data, [])
  | entry :: rest =>
    match _setOne sh data entry.1 entry.2 with
    | (d, Except.ok _) => _setManyGo sh d rest
    | (d, Except.error e) =>
      match _setManyGo sh d rest with
      | (d2, fs) => (d2, e :: fs)

/-- Modelled from the spec: `_setMany` of the current `lib/data-store.js`,
missing from `src/`; §4.1: if one or more `_setOne` calls failed, an
Aggregate Validation Failure wrapping the collected failures is raised after
all entries have been attempted; with zero failures the original properties
map is returned. -/
def _setMany {V : Type} (sh : Shape V) (data : Record V) (properties : Record V) :
    Record V × Except JSErr (Record V) :=
  match _setManyGo sh data properties with
  | (d, []) => (d, .ok properties)
  | (d, fs) => (d, .error (MultipleValidationError.make fs))

end Current

/-- The static configuration part of a shape (no override functions). -/
structure StoreConfig where
  camelcase : String → String
  normalizePropertyForStorage : String → String
  normalizePropertyForSerialization : String → String
  allowedProperties : Option (List String)
  disallowedProperties : Option (List String)
  className : String

/-- A shape with the given configuration and no override functions. -/
def plainShape (V : Type) (cfg : StoreConfig) : Shape V :=
  ⟨cfg.camelcase, cfg.normalizePropertyForStorage, cfg.normalizePropertyForSerialization,
    cfg.allowedProperties, cfg.disallowedProperties, cfg.className,
    fun _ => none, fun _ => none, fun _ => none⟩

/-- Replace only the override maps of a shape, keeping its configuration.
Used to state that an operation never consults particular overrides. -/
def withOverrides {V : Type} (sh : Shape V) (g : String → Option (Option V))
    (s : String → Option (Option V → Option V))
    (w : String → Option (Option V → Option JSErr)) : Shape V :=
  ⟨sh.camelcase, sh.normalizePropertyForStorage, sh.normalizePropertyForSerialization,
    sh.allowedProperties, sh.disallowedProperties, sh.className, g, s, w⟩

/-- The record invariant of the spec: every stored key has passed through the
storage normalization function (it is in its image) and passed the
allow/disallow policy. -/
def RecordInv {V : Type} (sh : Shape V) (data : Record V) : Prop :=
  ∀ kv ∈ data, (∃ p, sh.normalizePropertyForStorage p = kv.1) ∧
    isAllowedProperty sh kv.1 = true

/-- A plain configuration: identity casing and normalization, no policy lists. -/
def cfgId : StoreConfig :=
  ⟨id, id, id, none, none, "DataStore"⟩

/-- A plain identity-normalizing shape over `Nat` values. -/
def shapeId : Shape Nat :=
  plainShape Nat cfgId

/-- A shape whose policy disallows the property `"x"`. -/
def shapeDis : Shape Nat :=
  plainShape Nat ⟨id, id, id, none, some ["x"], "DataStore"⟩

/-- A shape listing `"a"` both as allowed and as disallowed. -/
def shapeBoth : Shape Nat :=
  plainShape Nat ⟨id, id, id, some ["a"], some ["a"], "DataStore"⟩

/-- A shape with a throwing validator override for property `"b"`
(discovered under the derived method name `"validateb"`). -/
def shapeVal : Shape Nat :=
  ⟨id, id, id, none, none, "DataStore",
    fun _ => none,
    fun _ => none,
    fun n => if n == "validateb"
      then some (fun _ => some (.validation "b is bad" [] "PROPERTY_VALIDATION"))
      else none⟩

/-- A shape whose storage normalization maps every spelling to `"k"`. -/
def shapeConst : Shape Nat :=
  plainShape Nat ⟨id, fun _ => "k", id, none, none, "DataStore"⟩

/-- A shape with a getter override for property `"v"` (discovered under the
derived method name `"getv"`) and no other overrides. -/
def shapeGet : Shape Nat :=
  ⟨id, id, id, none, none, "DataStore",
    fun n => if n == "getv" then some (some 7) else none,
    fun _ => none,
    fun _ => none⟩

/-! ### Basic record lemmas -/

theorem objGet_objSet_self {V : Type} (data : Record V) (k : String) (v : Option V) :
    objGet (objSet data k v) k = some v := by
  induction data with
  | nil => simp [objGet, objSet, List.find?]
  | cons kv rest ih =>
    by_cases h : kv.1 = k
    · simp [objSet, h, objGet, List.find?]
    · simp only [objSet, objGet] at *
      rw [if_neg (by simp [h])]
      simp only [List.find?]
      rw [show (kv.1 == k) = false by simp [h]]
      exact ih

theorem mem_objSet {V : Type} (data : Record V) (k : String) (v : Option V) :
    ∀ kv ∈ objSet data k v, kv ∈ data ∨ kv = (k, v) := by
  induction data with
  | nil => intro kv h; simp [objSet] at h; simp [h]
  | cons kv0 rest ih =>
    intro kv h
    simp only [objSet] at h
    by_cases h0 : kv0.1 = k
    · rw [if_pos (by simp [h0])] at h
      rcases List.mem_cons.mp h with h1 | h1
      · right; exact h1
      · left; exact List.mem_cons_of_mem _ h1
    · rw [if_neg (by simp [h0])] at h
      rcases List.mem_cons.mp h with h1 | h1
      · left; exact h1 ▸ List.mem_cons_self _ _
      · rcases ih kv h1 with h2 | h2
        · left; exact List.mem_cons_of_mem _ h2
        · right; exact h2

theorem objSet_of_not_mem {V : Type} (data : Record V) (k : String) (v : Option V)
    (h : k ∉ data.map Prod.fst) : objSet data k v = data ++ [(k, v)] := by
  induction data with
  | nil => rfl
  | cons kv rest ih =>
    simp only [List.map_cons, List.mem_cons] at h
    push_neg at h
    simp only [objSet]
    rw [if_neg (by simp [Ne.symm h.1])]
    rw [ih h.2]
    rfl

theorem objGet_of_nodup_mem {V : Type} (data : Record V) (k : String) (v : Option V)
    (hnd : (data.map Prod.fst).Nodup) (hmem : (k, v) ∈ data) :
    objGet data k = some v := by
  induction data with
  | nil => simp at hmem
  | cons kv rest ih =>
    simp only [List.map_cons, List.nodup_cons] at hnd
    rcases List.mem_cons.mp hmem with h1 | h1
    · simp [objGet, List.find?, ← h1]
    · have hne : kv.1 ≠ k := by
        intro he
        exact hnd.1 (he ▸ (List.mem_map.mpr ⟨(k, v), h1, rfl⟩))
      simp only [objGet, List.find?]
      rw [show (kv.1 == k) = false by simp [hne]]
      exact ih hnd.2 h1

theorem mem_keys_objSet {V : Type} (data : Record V) (k k0 : String) (v : Option V) :
    k ∈ (objSet data k0 v).map Prod.fst ↔ k ∈ data.map Prod.fst ∨ k = k0 := by
  induction data with
  | nil => simp [objSet, eq_comm]
  | cons kv rest ih =>
    by_cases h0 : kv.1 = k0
    · simp only [objSet]
      rw [if_pos (by simp [h0])]
      simp [h0, eq_comm]
      tauto
    · simp only [objSet]
      rw [if_neg (by simp [h0])]
      simp only [List.map_cons, List.mem_cons, ih]
      tauto

/-- If some member of a list fails the predicate, filtering strictly shrinks it. -/
theorem length_filter_lt_of_mem_not {α : Type} (p : α → Bool) (l : List α) (e : α)
    (he : e ∈ l) (hf : p e = false) : (l.filter p).length < l.length := by
  induction l with
  | nil => simp at he
  | cons a t ih =>
    rw [List.filter_cons]
    rcases List.mem_cons.mp he with h1 | h1
    · rw [← h1, hf]
      simp only [Bool.false_eq_true, if_false, List.length_cons]
      exact Nat.lt_succ_of_le (List.length_filter_le _ _)
    · by_cases hp : p a = true
      · rw [if_pos hp]
        simp only [List.length_cons]
        exact Nat.succ_lt_succ (ih h1)
      · rw [if_neg hp]
        simp only [List.length_cons]
        exact Nat.lt_succ_of_le (Nat.le_of_lt (ih h1))

/-- C7: `isAllowedProperty(n)` is true iff (`allowedProperties` is unset or
contains `n`) and (`disallowedProperties` is unset or does not contain `n`);
in particular a property on the disallowed list always fails the check, even
when it is also on the allowed list. -/
theorem isAllowedProperty_allow_disallow {V : Type} (sh : Shape V) (n : String) :
    (isAllowedProperty sh n = true ↔
      ((sh.allowedProperties = none ∨ ∃ l, sh.allowedProperties = some l ∧ n ∈ l) ∧
       (sh.disallowedProperties = none ∨ ∃ l, sh.disallowedProperties = some l ∧ n ∉ l))) ∧
    (∀ l, sh.disallowedProperties = some l → n ∈ l → isAllowedProperty sh n = false) := by
  constructor
  · cases h1 : sh.allowedProperties with
    | none =>
      cases h2 : sh.disallowedProperties with
      | none => simp [isAllowedProperty, h1, h2]
      | some d => by_cases hm : n ∈ d <;> simp [isAllowedProperty, h1, h2, hm]
    | some a =>
      cases h2 : sh.disallowedProperties with
      | none => by_cases ha : n ∈ a <;> simp [isAllowedProperty, h1, h2, ha]
      | some d =>
        by_cases ha : n ∈ a <;> by_cases hm : n ∈ d <;>
          simp [isAllowedProperty, h1, h2, ha, hm]
  · intro l hl hm
    cases h1 : sh.allowedProperties with
    | none => simp [isAllowedProperty, h1, hl, hm]
    | some a => by_cases ha : n ∈ a <;> simp [isAllowedProperty, h1, hl, hm, ha]

/-- Witness for C7 at a concrete shape: `"a"` is both allowed and disallowed,
and the check fails. -/
theorem isAllowedProperty_allow_disallow_witness :
    isAllowedProperty shapeBoth "a" = false :=
  (isAllowedProperty_allow_disallow shapeBoth "a").2 ["a"] rfl (by simp)

/-- C8: constructing a store from `null`, an array, or a non-object primitive
(string, number, boolean) always fails with the `TypeError`
"DataStore data must be an object", and no store is created. -/
theorem construct_rejects_nonobject {V : Type} (sh : Shape V) :
    DataStore.construct sh .null = .error (.typeError "DataStore data must be an object") ∧
    (∀ items, DataStore.construct sh (.array items) =
      .error (.typeError "DataStore data must be an object")) ∧
    (∀ s, DataStore.construct sh (.str s) =
      .error (.typeError "DataStore data must be an object")) ∧
    (∀ n, DataStore.construct sh (.num n) =
      .error (.typeError "DataStore data must be an object")) ∧
    (∀ b, DataStore.construct sh (.boolean b) =
      .error (.typeError "DataStore data must be an object")) :=
  ⟨rfl, fun _ => rfl, fun _ => rfl, fun _ => rfl, fun _ => rfl⟩

/-- Witness for C8 at a concrete shape and input. -/
theorem construct_rejects_nonobject_witness :
    DataStore.construct shapeId (.str "hello") =
      .error (.typeError "DataStore data must be an object") :=
  (construct_rejects_nonobject shapeId).2.2.1 "hello"

/-- C9: the `MultipleValidationError` message counts the whole input array
while the wrapped list keeps only `ValidationError` instances, so with a
non-`ValidationError` item in the input the stated count strictly exceeds
the wrapped list's length. -/
theorem multipleValidationError_message_count (es : List JSErr) :
    MultipleValidationError.make es =
      .multiple (toString es.length ++ " validation errors") (es.filter isValidationError) ∧
    (∀ e ∈ es, isValidationError e = false →
      (es.filter isValidationError).length < es.length) :=
  ⟨rfl, fun e he hf => length_filter_lt_of_mem_not isValidationError es e he hf⟩

/-- Witness for C9: a single non-`ValidationError` input item yields the
message "1 validation errors" but an empty wrapped list. -/
theorem multipleValidationError_message_count_witness :
    MultipleValidationError.make [JSErr.typeError "x"] =
      .multiple "1 validation errors" [] ∧
    ([JSErr.typeError "x"].filter isValidationError).length < 1 :=
  ⟨((multipleValidationError_message_count [JSErr.typeError "x"]).1).trans rfl,
    (multipleValidationError_message_count [JSErr.typeError "x"]).2
      (JSErr.typeError "x") (List.mem_singleton.mpr rfl) rfl⟩

/-- C2 (spec-modelled): when the normalized property name fails the
allow/disallow test, the current `_setOne` raises a `ValidationError` whose
message names the offending property (as `<className>.<normalizedProperty>`)
and whose code is `DISALLOWED_PROPERTY`, leaves the record unchanged, and
never consults the validator or setter overrides (the result is the same for
every choice of override maps). -/
theorem current_setOne_disallowed {V : Type} (sh : Shape V) (data : Record V)
    (property : String) (value : Option V)
    (h : isAllowedProperty sh (sh.normalizePropertyForStorage property) = false) :
    ∀ g s w, Current._setOne (withOverrides sh g s w) data property value =
      (data, .error (.validation
        (sh.className ++ "." ++ sh.normalizePropertyForStorage property ++
          " is not an allowed property name") [] "DISALLOWED_PROPERTY")) := by
  intro g s w
  have h' : isAllowedProperty (withOverrides sh g s w)
      (sh.normalizePropertyForStorage property) = false := h
  simp [Current._setOne, withOverrides, Current.invalidate, ValidationError.make] at h' ⊢
  rw [h']
  simp

/-- Witness for C2: setting the disallowed property `"x"` on a concrete shape. -/
theorem current_setOne_disallowed_witness :
    Current._setOne (withOverrides shapeDis shapeDis.getters shapeDis.setters
        shapeDis.validators) [] "x" (some 1) =
      ([], .error (.validation "DataStore.x is not an allowed property name" []
        "DISALLOWED_PROPERTY")) :=
  current_setOne_disallowed shapeDis [] "x" (some 1) rfl
    shapeDis.getters shapeDis.setters shapeDis.validators

/-- C6: when the property is allowed and a validator override exists and
throws on the candidate value, `_setOne` propagates exactly that error, the
record is unchanged, and the setter override is never consulted (the result
is the same for every choice of setter map). -/
theorem dataStore_setOne_validator_throws {V : Type} (sh : Shape V) (data : Record V)
    (property : String) (value : Option V) (f : Option V → Option JSErr) (e : JSErr)
    (hallow : isAllowedProperty sh (sh.normalizePropertyForStorage property) = true)
    (hval : sh.validators ("validate" ++ sh.camelcase property) = some f)
    (hf : f value = some e) :
    ∀ s, DataStore._setOne (withOverrides sh sh.getters s sh.validators)
      data property value = (data, .error e) := by
  intro s
  have h' : isAllowedProperty (withOverrides sh sh.getters s sh.validators)
      (sh.normalizePropertyForStorage property) = true := hallow
  simp [DataStore._setOne, withOverrides] at h' ⊢
  rw [h']
  simp [hval, hf]

/-- Witness for C6: a throwing validator for `"b"` on a concrete shape. -/
theorem dataStore_setOne_validator_throws_witness :
    DataStore._setOne (withOverrides shapeVal shapeVal.getters (fun _ => none)
        shapeVal.validators) [] "b" (some 1) =
      ([], .error (.validation "b is bad" [] "PROPERTY_VALIDATION")) :=
  dataStore_setOne_validator_throws shapeVal [] "b" (some 1)
    (fun _ => some (.validation "b is bad" [] "PROPERTY_VALIDATION"))
    (.validation "b is bad" [] "PROPERTY_VALIDATION") rfl rfl rfl (fun _ => none)

/-- C4: if two spellings have the same storage normalization, the property
passes the allow/disallow policy, there is no getter override for the second
spelling and no setter override for the first, then whenever
`set(S1, v)` completes (returns rather than throws), `get(S2)` on the
resulting record yields `v`. -/
theorem dataStore_set_get_spellings {V : Type} (sh : Shape V) (data : Record V)
    (S1 S2 : String) (v : Option V)
    (hnorm : sh.normalizePropertyForStorage S1 = sh.normalizePropertyForStorage S2)
    (hget : sh.getters ("get" ++ sh.camelcase S2) = none)
    (hset : sh.setters ("set" ++ sh.camelcase S1) = none)
    (hallow : isAllowedProperty sh (sh.normalizePropertyForStorage S1) = true) :
    ∀ d r, DataStore.set sh data S1 v = (d, Except.ok r) →
      DataStore.get sh d S2 = v := by
  intro d r hrun
  simp only [DataStore.set, DataStore._setOne, hallow, Bool.not_true,
    Bool.false_eq_true, if_false] at hrun
  rcases hv : sh.validators ("validate" ++ sh.camelcase S1) with _ | f <;>
    rw [hv] at hrun <;> simp only [hset] at hrun
  · simp only [Prod.mk.injEq] at hrun
    simp only [DataStore.get, hget, ← hnorm, ← hrun.1, objGet_objSet_self]
  · rcases hfv : f v with _ | e
    · rw [hfv] at hrun
      simp only [Prod.mk.injEq] at hrun
      simp only [DataStore.get, hget, ← hnorm, ← hrun.1, objGet_objSet_self]
    · rw [hfv] at hrun
      simp at hrun

/-- Witness for C4: a shape whose storage normalization sends every spelling
to `"k"`, so `"A"` and `"B"` name the same stored property. -/
theorem dataStore_set_get_spellings_witness :
    DataStore.get shapeConst (DataStore.set shapeConst [] "A" (some 5)).1 "B" = some 5 :=
  dataStore_set_get_spellings shapeConst [] "A" "B" (some 5) rfl rfl rfl rfl
    (DataStore.set shapeConst [] "A" (some 5)).1 (some 5) rfl

/-- The record produced by `_setOne` is either untouched, or the old record
with the value written at the normalized key after the policy check passed. -/
theorem setOne_fst_cases {V : Type} (sh : Shape V) (data : Record V) (p : String)
    (v : Option V) :
    (DataStore._setOne sh data p v).1 = data ∨
      ((DataStore._setOne sh data p v).1 =
        objSet data (sh.normalizePropertyForStorage p) v ∧
       isAllowedProperty sh (sh.normalizePropertyForStorage p) = true) := by
  by_cases hA : isAllowedProperty sh (sh.normalizePropertyForStorage p) = true
  · rcases hv : sh.validators ("validate" ++ sh.camelcase p) with _ | f
    · rcases hs : sh.setters ("set" ++ sh.camelcase p) with _ | s
      · right
        exact ⟨by simp [DataStore._setOne, hA, hv, hs], hA⟩
      · left; simp [DataStore._setOne, hA, hv, hs]
    · rcases hfv : f v with _ | e
      · rcases hs : sh.setters ("set" ++ sh.camelcase p) with _ | s
        · right
          exact ⟨by simp [DataStore._setOne, hA, hv, hfv, hs], hA⟩
        · left; simp [DataStore._setOne, hA, hv, hfv, hs]
      · left; simp [DataStore._setOne, hA, hv, hfv]
  · left
    have hA' : isAllowedProperty sh (sh.normalizePropertyForStorage p) = false := by
      simpa using hA
    simp [DataStore._setOne, hA']

/-- `_setOne` preserves the record invariant. -/
theorem setOne_preserves_inv {V : Type} (sh : Shape V) (data : Record V) (p : String)
    (v : Option V) (h : RecordInv sh data) :
    RecordInv sh (DataStore._setOne sh data p v).1 := by
  rcases setOne_fst_cases sh data p v with hc | ⟨hc, hA⟩
  · rw [hc]; exact h
  · rw [hc]
    intro kv hkv
    rcases mem_objSet data _ v kv hkv with hm | hm
    · exact h kv hm
    · rw [hm]
      exact ⟨⟨p, rfl⟩, hA⟩

/-- The `_setMany` loop preserves the record invariant. -/
theorem setManyGo_preserves_inv {V : Type} (sh : Shape V) (props : Record V) :
    ∀ data, RecordInv sh data → RecordInv sh (DataStore._setManyGo sh data props).1 := by
  induction props with
  | nil => intro data h; simpa [DataStore._setManyGo] using h
  | cons entry rest ih =>
    intro data h
    have h1 : RecordInv sh (DataStore._setOne sh data entry.1 entry.2).1 :=
      setOne_preserves_inv sh data entry.1 entry.2 h
    simp only [DataStore._setManyGo]
    rcases hso : DataStore._setOne sh data entry.1 entry.2 with ⟨d, r⟩
    rw [hso] at h1
    cases r with
    | ok val => exact ih d h1
    | error e => exact h1

/-- `_setMany` leaves the same record as its loop. -/
theorem setMany_fst {V : Type} (sh : Shape V) (data : Record V) (props : Record V) :
    (DataStore._setMany sh data props).1 = (DataStore._setManyGo sh data props).1 := by
  simp only [DataStore._setMany]
  rcases h : DataStore._setManyGo sh data props with ⟨d, o⟩
  cases o <;> rfl

/-- The constructor tail (run `_setMany` from an empty record, return the
record on success) only produces invariant-satisfying records. -/
theorem setManyReturn_ok_inv {V : Type} (sh : Shape V) (es : Record V) (d : Record V)
    (h : (match DataStore._setMany sh [] es with
      | (dd, Except.ok _) => (Except.ok dd : Except JSErr (Record V))
      | (_, Except.error e) => Except.error e) = Except.ok d) : RecordInv sh d := by
  have base : RecordInv sh ([] : Record V) := by intro kv hkv; simp at hkv
  rcases hm : DataStore._setMany sh [] es with ⟨d0, r0⟩
  rw [hm] at h
  cases r0 with
  | ok val =>
    have hd : d0 = d := by injection h
    have hfst : d0 = (DataStore._setManyGo sh [] es).1 := by
      rw [← setMany_fst, hm]
    rw [← hd, hfst]
    exact setManyGo_preserves_inv sh es [] base
  | error e => exact Except.noConfusion h

/-- C3: the record invariant (every stored key is the normalization of some
input spelling and passed the allow/disallow policy when written) holds for
every successfully constructed store and is preserved by `_setOne` and
`_setMany`. -/
theorem dataStore_record_invariant {V : Type} (sh : Shape V) :
    (∀ input d, DataStore.construct sh input = Except.ok d → RecordInv sh d) ∧
    (∀ data property value, RecordInv sh data →
      RecordInv sh (DataStore._setOne sh data property value).1) ∧
    (∀ data props, RecordInv sh data →
      RecordInv sh (DataStore._setMany sh data props).1) := by
  refine ⟨?_, fun data p v h => setOne_preserves_inv sh data p v h,
    fun data props h => by rw [setMany_fst]; exact setManyGo_preserves_inv sh props data h⟩
  intro input d h
  cases input with
  | null => exact Except.noConfusion h
  | array items => exact Except.noConfusion h
  | str s => exact Except.noConfusion h
  | num n => exact Except.noConfusion h
  | boolean b => exact Except.noConfusion h
  | obj es => exact setManyReturn_ok_inv sh es d h
  | store sh0 d0 => exact setManyReturn_ok_inv sh (DataStore.serialize sh0 d0) d h

/-- Witness for C3: a concretely constructed store satisfies the invariant. -/
theorem dataStore_record_invariant_witness : RecordInv shapeId [("a", some 1)] :=
  (dataStore_record_invariant shapeId).1 (.obj [("a", some 1)]) [("a", some 1)] rfl

/-- The record after the aggregating `_setMany` loop is the left fold of the
per-entry `_setOne` record transformer over all entries, failures included. -/
theorem current_setManyGo_fst {V : Type} (sh : Shape V) (props : Record V) :
    ∀ data, (Current._setManyGo sh data props).1 =
      props.foldl (fun d kv => (Current._setOne sh d kv.1 kv.2).1) data := by
  induction props with
  | nil => intro data; rfl
  | cons entry rest ih =>
    intro data
    simp only [Current._setManyGo, List.foldl_cons]
    rcases hso : Current._setOne sh data entry.1 entry.2 with ⟨d, r⟩
    cases r with
    | ok val => exact ih d
    | error e => exact ih d

/-- C1 (spec-modelled): the current `_setMany` attempts every entry through
`_setOne` (the final record is the fold of the per-entry transformer over the
whole batch, even when entries fail), collects the thrown failures in order,
raises a `MultipleValidationError` wrapping the collected failures when at
least one entry failed, and returns the original properties map when none
did. -/
theorem current_setMany_spec {V : Type} (sh : Shape V) (data : Record V)
    (props : Record V) :
    (Current._setMany sh data props).1 =
      props.foldl (fun d kv => (Current._setOne sh d kv.1 kv.2).1) data ∧
    ((Current._setManyGo sh data props).2 = [] →
      (Current._setMany sh data props).2 = Except.ok props) ∧
    (∀ e fs, (Current._setManyGo sh data props).2 = e :: fs →
      (Current._setMany sh data props).2 =
        Except.error (MultipleValidationError.make (e :: fs))) := by
  rcases hgo : Current._setManyGo sh data props with ⟨d, fs0⟩
  have hfst : d = props.foldl (fun dd kv => (Current._setOne sh dd kv.1 kv.2).1) data := by
    have h0 := current_setManyGo_fst sh props data
    rw [hgo] at h0
    exact h0
  refine ⟨?_, ?_, ?_⟩
  · simp only [Current._setMany, hgo]
    cases fs0 <;> simpa using hfst
  · intro hnil
    have hfsnil : fs0 = [] := hnil
    rw [hfsnil] at hgo
    unfold Current._setMany
    rw [hgo]
  · intro e fs hcons
    have hfs : fs0 = e :: fs := hcons
    rw [hfs] at hgo
    unfold Current._setMany
    rw [hgo]

/-- Witness for C1, the batch from §8 of the spec: with a valid `"a"` and a
`"b"` whose validator throws, `"a"` is still written and the call raises an
aggregate wrapping exactly the one failure for `"b"`. -/
theorem current_setMany_spec_witness :
    (Current._setMany shapeVal [] [("a", some 1), ("b", some 2)]).1 = [("a", some 1)] ∧
    (Current._setMany shapeVal [] [("a", some 1), ("b", some 2)]).2 =
      Except.error (MultipleValidationError.make
        [.validation "b is bad" [] "PROPERTY_VALIDATION"]) :=
  ⟨((current_setMany_spec shapeVal [] [("a", some 1), ("b", some 2)]).1).trans rfl,
   (current_setMany_spec shapeVal [] [("a", some 1), ("b", some 2)]).2.2
     (.validation "b is bad" [] "PROPERTY_VALIDATION") [] rfl⟩

/-- Keys of a record built by folding `objSet` with renamed keys. -/
theorem mem_keys_foldl_objSet {V : Type} (g : String → String) (es : Record V) :
    ∀ (acc : Record V) (k : String),
      (k ∈ (es.foldl (fun r kv => objSet r (g kv.1) kv.2) acc).map Prod.fst) ↔
        k ∈ acc.map Prod.fst ∨ ∃ kv ∈ es, g kv.1 = k := by
  induction es with
  | nil => intro acc k; simp
  | cons e rest ih =>
    intro acc k
    simp only [List.foldl_cons, ih, mem_keys_objSet, List.mem_cons]
    constructor
    · rintro (⟨h1 | h1⟩ | ⟨kv, hkv, hg⟩)
      · exact Or.inl h1
      · exact Or.inr ⟨e, Or.inl rfl, h1.symm⟩
      · exact Or.inr ⟨kv, Or.inr hkv, hg⟩
    · rintro (h1 | ⟨kv, hkv | hkv, hg⟩)
      · exact Or.inl (Or.inl h1)
      · exact Or.inl (Or.inr (hkv ▸ hg.symm))
      · exact Or.inr ⟨kv, hkv, hg⟩

/-- C10: the key set of `serialize()` output is exactly the stored keys mapped
through serialization normalization; with the default identity serialization
normalization, a virtual property backed only by a getter override (no stored
key under its normalized name) is absent from the output even though `get`
returns its value. -/
theorem dataStore_serialize_keys {V : Type} (sh : Shape V) (data : Record V) :
    (∀ k, k ∈ (DataStore.serialize sh data).map Prod.fst ↔
      ∃ kv ∈ data, sh.normalizePropertyForSerialization kv.1 = k) ∧
    (∀ p gv, sh.getters ("get" ++ sh.camelcase p) = some gv →
      (∀ s, sh.normalizePropertyForSerialization s = s) →
      sh.normalizePropertyForStorage p ∉ data.map Prod.fst →
      (sh.normalizePropertyForStorage p ∉ (DataStore.serialize sh data).map Prod.fst ∧
       DataStore.get sh data p = gv)) := by
  have hkeys : ∀ k, k ∈ (DataStore.serialize sh data).map Prod.fst ↔
      ∃ kv ∈ data, sh.normalizePropertyForSerialization kv.1 = k := by
    intro k
    simp only [DataStore.serialize, mem_keys_foldl_objSet]
    simp [List.mem_map]
  refine ⟨hkeys, ?_⟩
  intro p gv hg hser hnomem
  constructor
  · intro hmem
    rcases (hkeys _).mp hmem with ⟨kv, hkv, hk⟩
    rw [hser kv.1] at hk
    exact hnomem (hk ▸ List.mem_map.mpr ⟨kv, hkv, rfl⟩)
  · simp [DataStore.get, hg]

/-- Witness for C10: on a concrete shape with a getter override for `"v"` and
a record storing only `"w"`, the serialized output has no `"v"` key but `get`
returns the getter's value. -/
theorem dataStore_serialize_keys_witness :
    ("v" ∉ (DataStore.serialize shapeGet [("w", some 1)]).map Prod.fst ∧
     DataStore.get shapeGet [("w", some 1)] "v" = some 7) :=
  (dataStore_serialize_keys shapeGet [("w", some 1)]).2 "v" (some 7) rfl
    (fun _ => rfl) (by decide)

/-- Folding fresh writes over a record with pairwise-new, mutually distinct
keys appends the entries in order. -/
theorem foldl_objSet_append {V : Type} (es : Record V) :
    ∀ acc : Record V, (∀ k ∈ es.map Prod.fst, k ∉ acc.map Prod.fst) →
      (es.map Prod.fst).Nodup →
      es.foldl (fun d kv => objSet d kv.1 kv.2) acc = acc ++ es := by
  induction es with
  | nil => intro acc _ _; simp
  | cons e rest ih =>
    intro acc hdisj hnd
    simp only [List.map_cons, List.nodup_cons] at hnd
    simp only [List.foldl_cons]
    rw [objSet_of_not_mem acc e.1 e.2 (hdisj e.1 (by simp))]
    rw [ih (acc ++ [(e.1, e.2)]) ?hd ?hn]
    · simp
    case hd =>
      intro k hk
      simp only [List.map_append, List.mem_append]
      push_neg
      refine ⟨hdisj k (by simp [hk]), ?_⟩
      simp only [List.map_cons, List.map_nil, List.mem_singleton]
      intro hke
      exact hnd.1 (hke ▸ hk)
    case hn => exact hnd.2

/-- Renaming keys through a function that fixes every key of the list does
not change the fold. -/
theorem foldl_objSet_norm_eq {V : Type} (g : String → String) (es : Record V) :
    ∀ acc : Record V, (∀ kv ∈ es, g kv.1 = kv.1) →
      es.foldl (fun d kv => objSet d (g kv.1) kv.2) acc =
        es.foldl (fun d kv => objSet d kv.1 kv.2) acc := by
  induction es with
  | nil => intro acc _; rfl
  | cons e rest ih =>
    intro acc h
    simp only [List.foldl_cons, h e (by simp)]
    exact ih _ (fun kv hm => h kv (by simp [hm]))

/-- With no overrides, identity serialization normalization, normalized and
mutually distinct keys, `serialize` reproduces the record exactly. -/
theorem serialize_plain_self {V : Type} (cfg : StoreConfig) (data : Record V)
    (hser : ∀ s, cfg.normalizePropertyForSerialization s = s)
    (hkeys : ∀ kv ∈ data, cfg.normalizePropertyForStorage kv.1 = kv.1)
    (hnd : (data.map Prod.fst).Nodup) :
    DataStore.serialize (plainShape V cfg) data = data := by
  simp only [DataStore.serialize]
  have hentries :
      data.map (fun kv => (kv.1, DataStore.get (plainShape V cfg) data kv.1)) = data := by
    have hpt : ∀ kv ∈ data,
        (kv.1, DataStore.get (plainShape V cfg) data kv.1) = kv := by
      intro kv hm
      have hget : DataStore.get (plainShape V cfg) data kv.1 = kv.2 := by
        simp only [DataStore.get, plainShape]
        rw [hkeys kv hm, objGet_of_nodup_mem data kv.1 kv.2 hnd hm]
      rw [hget]
    calc data.map (fun kv => (kv.1, DataStore.get (plainShape V cfg) data kv.1))
        = data.map id := List.map_congr_left hpt
      _ = data := List.map_id data
  rw [hentries]
  have hf : (fun (r : Record V) (kv : String × Option V) =>
      objSet r ((plainShape V cfg).normalizePropertyForSerialization kv.1) kv.2) =
      (fun (r : Record V) (kv : String × Option V) => objSet r kv.1 kv.2) := by
    funext r kv
    simp only [plainShape]
    rw [hser]
  rw [hf]
  rw [foldl_objSet_append data [] (by intro k _ hk; simp at hk) hnd]
  simp

/-- On a plain shape, `_setMany`'s loop from any record writes every entry
(at its normalized key) and collects no failure, provided every entry passes
the policy. -/
theorem setManyGo_plain {V : Type} (cfg : StoreConfig) (es : Record V) :
    ∀ d0 : Record V,
      (∀ kv ∈ es, isAllowedProperty (plainShape V cfg)
        (cfg.normalizePropertyForStorage kv.1) = true) →
      DataStore._setManyGo (plainShape V cfg) d0 es =
        (es.foldl (fun d kv => objSet d (cfg.normalizePropertyForStorage kv.1) kv.2) d0,
          none) := by
  induction es with
  | nil => intro d0 _; rfl
  | cons e rest ih =>
    intro d0 hallow
    have hA := hallow e (by simp)
    have hso : DataStore._setOne (plainShape V cfg) d0 e.1 e.2 =
        (objSet d0 (cfg.normalizePropertyForStorage e.1) e.2, Except.ok e.2) := by
      have hA2 : isAllowedProperty (plainShape V cfg)
          ((plainShape V cfg).normalizePropertyForStorage e.1) = true := hA
      simp only [DataStore._setOne, hA2, Bool.not_true, Bool.false_eq_true, if_false]
      simp [plainShape]
    simp only [DataStore._setManyGo, List.foldl_cons, hso]
    exact ih _ (fun kv h => hallow kv (by simp [h]))

/-- Constructing a plain store from a policy-passing object writes every
entry at its normalized key, in order, starting from an empty record. -/
theorem construct_plain_obj {V : Type} (cfg : StoreConfig) (D : Record V)
    (hallow : ∀ kv ∈ D, isAllowedProperty (plainShape V cfg)
      (cfg.normalizePropertyForStorage kv.1) = true) :
    DataStore.construct (plainShape V cfg) (.obj D) =
      Except.ok (D.foldl
        (fun d kv => objSet d (cfg.normalizePropertyForStorage kv.1) kv.2) []) := by
  have hgo := setManyGo_plain cfg D [] hallow
  have hmany : DataStore._setMany (plainShape V cfg) [] D =
      (D.foldl (fun d kv => objSet d (cfg.normalizePropertyForStorage kv.1) kv.2) [],
        Except.ok D) := by
    unfold DataStore._setMany
    rw [hgo]
  show (match DataStore._setMany (plainShape V cfg) [] D with
    | (d, Except.ok _) => (Except.ok d : Except JSErr (Record V))
    | (_, Except.error e) => Except.error e) = _
  rw [hmany]

/-- C5: on an override-free shape with the default identity serialization
normalization, (a) feeding `serialize()` output back into a fresh store of
the same shape reproduces the stored record exactly, and (b) when the
storage normalization is also the identity, a store constructed from plain
data `D` serializes back to `D` with values unchanged. -/
theorem dataStore_serialize_roundtrip {V : Type} (cfg : StoreConfig)
    (hser : ∀ s, cfg.normalizePropertyForSerialization s = s) :
    (∀ data1 : Record V,
      (∀ kv ∈ data1, cfg.normalizePropertyForStorage kv.1 = kv.1) →
      (∀ kv ∈ data1, isAllowedProperty (plainShape V cfg) kv.1 = true) →
      (data1.map Prod.fst).Nodup →
      DataStore.construct (plainShape V cfg)
        (.obj (DataStore.serialize (plainShape V cfg) data1)) = Except.ok data1) ∧
    (∀ D : Record V, (∀ s, cfg.normalizePropertyForStorage s = s) →
      (D.map Prod.fst).Nodup →
      (∀ kv ∈ D, isAllowedProperty (plainShape V cfg) kv.1 = true) →
      ∀ d, DataStore.construct (plainShape V cfg) (.obj D) = Except.ok d →
        DataStore.serialize (plainShape V cfg) d = D) := by
  constructor
  · intro data1 hkeys hallow hnd
    rw [serialize_plain_self cfg data1 hser hkeys hnd]
    rw [construct_plain_obj cfg data1
      (fun kv hm => by rw [hkeys kv hm]; exact hallow kv hm)]
    congr 1
    rw [foldl_objSet_norm_eq cfg.normalizePropertyForStorage data1 [] hkeys]
    rw [foldl_objSet_append data1 [] (by intro k _ hk; simp at hk) hnd]
    simp
  · intro D hsto hnd hallowD d hctor
    rw [construct_plain_obj cfg D
      (fun kv hm => by rw [hsto kv.1]; exact hallowD kv hm)] at hctor
    have hfun : (fun (dd : Record V) (kv : String × Option V) =>
        objSet dd (cfg.normalizePropertyForStorage kv.1) kv.2) =
        (fun (dd : Record V) (kv : String × Option V) => objSet dd kv.1 kv.2) := by
      funext dd kv
      rw [hsto]
    rw [hfun] at hctor
    rw [foldl_objSet_append D [] (by intro k _ hk; simp at hk) hnd] at hctor
    simp only [List.nil_append] at hctor
    have hd : d = D := by
      injection hctor with h0
      exact h0.symm
    rw [hd]
    exact serialize_plain_self cfg D hser (fun kv _ => hsto kv.1) hnd

/-- Witness for C5: serializing a concrete plain store and rebuilding a store
of the same shape from the output reproduces the record. -/
theorem dataStore_serialize_roundtrip_witness :
    DataStore.construct (plainShape Nat cfgId)
      (.obj (DataStore.serialize (plainShape Nat cfgId) [("a", some 1), ("b", none)])) =
      Except.ok [("a", some 1), ("b", none)] :=
  (dataStore_serialize_roundtrip cfgId (fun _ => rfl)).1 [("a", some 1), ("b", none)]
    (fun _ _ => rfl) (fun _ _ => rfl) (by decide)
